import Mathlib

/-!
Shallow embedding of the qPCR Analyzer pipeline
(src/my_module/functions.py) and proofs about it.

Modelling conventions:
- a pandas DataFrame is a list of column names together with a list of
  rows, each row a list of cells; cell (i, j) belongs to the column
  named cols[j];
- cells are either strings or exact rational numbers; the floating
  point Cq measurements are embedded as rationals, and the NaN that
  pandas std produces for a singleton group is embedded as Option.none;
- Python KeyError raised for a missing required column is embedded as
  the Except.error constructor carrying the missing column name.
-/

namespace QPCR

/-- Cell value of a loaded table: an identifier string or a numeric
measurement (embedded as an exact rational). -/
inductive Value where
  | str (s : String)
  | num (q : ℚ)
deriving DecidableEq

/-- Embedding of a pandas DataFrame: named columns plus rows of cells.
Row r has its cell for the column named cols[j] at position j. -/
structure DataFrame where
  cols : List String
  rows : List (List Value)
deriving DecidableEq

/-- Embeds clean_sample_name: the substitution re.sub replacing one
trailing match of underscore-then-digits (anchored at the end) with the
empty string. On the reversed character list, the trailing run of
decimal digits together with the underscore directly before it is
removed when both are present; otherwise the input comes back
unchanged. -/
def clean_sample_name (s : String) : String :=
  let r := s.data.reverse
  let ds := r.takeWhile Char.isDigit
  if ds ≠ [] ∧ (r.drop ds.length).head? = some '_' then
    String.mk ((r.drop ds.length).tail.reverse)
  else s

/-- The name ends in an underscore followed by one or more decimal
digits: it decomposes as t ++ "_" ++ ds with ds nonempty and all
digits. This is the domain of the regex pattern of clean_sample_name. -/
def HasRepSuffix (s : String) : Prop :=
  ∃ t ds : String, s = t ++ "_" ++ ds ∧ ds ≠ "" ∧ ∀ c ∈ ds.data, c.isDigit

/-- Boolean form of the condition tested inside clean_sample_name. -/
def hasRepSuffixB (s : String) : Bool :=
  let r := s.data.reverse
  let ds := r.takeWhile Char.isDigit
  !ds.isEmpty && ((r.drop ds.length).head? == some '_')

/-- Cell of row r for the column named c: the row entry at the position
of c in the column list, none when the column is absent. -/
def getVal (cols : List String) (r : List Value) (c : String) : Option Value :=
  (cols.findIdx? (· = c)).bind fun i => r[i]?

/-- Embeds filter_by_target: keeps exactly the rows whose Target cell
equals the given name under exact case-sensitive string equality, as
the boolean mask of the source does. The source raises KeyError when
the Target column is absent; the embedding is only applied, and its
theorems only stated, where Target is present, as the pipeline
validates before calling it. -/
def filter_by_target (df : DataFrame) (target_name : String) : DataFrame :=
  DataFrame.mk df.cols
    (df.rows.filter fun r => decide (getVal df.cols r "Target" = some (Value.str target_name)))

/-- Image of one cell under clean_sample_name; a cell that is not a
string is outside the modelled domain (re.sub raises TypeError on it
in the source). -/
def cleanCell (v : Value) : Value :=
  match v with
  | Value.str s => Value.str (clean_sample_name s)
  | v => v

/-- Derived base_sample cell of a row. The default for an absent Sample
cell is never reached on tables validated by the pipeline. -/
def baseCellOf (cols : List String) (r : List Value) : Value :=
  cleanCell ((getVal cols r "Sample").getD (Value.str ""))

/-- Embeds add_base_sample_column: copies the table and assigns the
base_sample column as clean_sample_name of the Sample column. When
base_sample is not yet a column pandas appends it on the right; when
it already exists the assignment overwrites it in place. -/
def add_base_sample_column (df : DataFrame) : DataFrame :=
  match df.cols.findIdx? (· = "base_sample") with
  | some i => DataFrame.mk df.cols (df.rows.map fun r => r.set i (baseCellOf df.cols r))
  | none =>
      DataFrame.mk (df.cols ++ ["base_sample"])
        (df.rows.map fun r => r ++ [baseCellOf df.cols r])

/-- One row of the summary table produced by summarize_duplicates. The
std_cq column of the source is carried as the sample variance var_cq
(none embeds the NaN that pandas std yields for a singleton group);
the reported standard deviation is its square root, SummaryRow.std_cq
below. -/
structure SummaryRow where
  base_sample : String
  mean_cq : ℚ
  var_cq : Option ℚ
  n_reps : ℕ
deriving DecidableEq

/-- The std_cq value reported by the source summary: the square root of
the sample variance, NaN (none) for a singleton group. -/
noncomputable def SummaryRow.std_cq (r : SummaryRow) : Option ℝ :=
  r.var_cq.map fun q => Real.sqrt (q : ℝ)

/-- Embeds the KeyError the source raises for a missing required
column; carries the column name, as the source message does. -/
inductive QError where
  | missingColumn (c : String)
deriving DecidableEq

/-- Grouping key of a row: the string in its base_sample cell. Rows
whose base_sample cell is missing or not a string are outside the
modelled grouping domain. -/
def keyOf (cols : List String) (r : List Value) : Option String :=
  match getVal cols r "base_sample" with
  | some (Value.str s) => some s
  | _ => none

/-- Numeric Cq measurement of a row, none when the cell is missing or
not numeric. -/
def cqOf (cols : List String) (r : List Value) : Option ℚ :=
  match getVal cols r "Cq" with
  | some (Value.num q) => some q
  | _ => none

/-- Cq values of the group keyed by g, in row order. -/
def groupVals (df : DataFrame) (g : String) : List ℚ :=
  df.rows.filterMap fun r => if keyOf df.cols r = some g then cqOf df.cols r else none

/-- Ascending order on the group keys: Python compares strings by code
points, lexicographically, which is the lexicographic order on the
character lists. -/
def strLe (a b : String) : Prop := a.data ≤ b.data

/-- Strict form of strLe. -/
def strLt (a b : String) : Prop := a.data < b.data

instance (a b : String) : Decidable (strLe a b) := by
  unfold strLe
  infer_instance

instance (a b : String) : Decidable (strLt a b) := by
  unfold strLt
  infer_instance

/-- Distinct grouping keys in ascending order: pandas groupby sorts the
group keys by default. -/
def groupKeys (df : DataFrame) : List String :=
  ((df.rows.filterMap (keyOf df.cols)).dedup).insertionSort strLe

/-- Sum of squares of a list of rationals. -/
def sumSq (l : List ℚ) : ℚ := (l.map fun x => x ^ 2).sum

/-- Aggregates one group: arithmetic mean, sample variance with divisor
n - 1 (none for a singleton group, embedding NaN), and count. -/
def mkSummaryRow (g : String) (l : List ℚ) : SummaryRow :=
  SummaryRow.mk g (l.sum / l.length)
    (if l.length ≤ 1 then none
     else some ((sumSq l - l.sum ^ 2 / l.length) / ((l.length : ℚ) - 1)))
    l.length

/-- Embeds summarize_duplicates: raises KeyError when base_sample, then
Cq, is absent; otherwise groups rows by their base_sample string and
aggregates the Cq values of every group. -/
def summarize_duplicates (df : DataFrame) : Except QError (List SummaryRow) :=
  if "base_sample" ∉ df.cols then Except.error (QError.missingColumn "base_sample")
  else if "Cq" ∉ df.cols then Except.error (QError.missingColumn "Cq")
  else Except.ok ((groupKeys df).map fun g => mkSummaryRow g (groupVals df g))

/-- Result of the whole pipeline: the source returns the literally
empty DataFrame (zero rows and zero columns) when no row matches the
target, and otherwise the four-column summary table. -/
inductive SummaryResult where
  | empty
  | table (rows : List SummaryRow)
deriving DecidableEq

/-- Number of rows of a pipeline result. -/
def SummaryResult.numRows : SummaryResult → ℕ
  | SummaryResult.empty => 0
  | SummaryResult.table l => l.length

/-- Number of columns of a pipeline result: the summary table has the
four columns base_sample, mean_cq, std_cq and n_reps. -/
def SummaryResult.numCols : SummaryResult → ℕ
  | SummaryResult.empty => 0
  | SummaryResult.table _ => 4

/-- Embeds summarize_target_from_file after the load step (file input
is not modelled: the df argument is the loaded table): validates that
Target, Sample and Cq are present in this order, filters by the
target, short-circuits to the empty DataFrame when nothing matched,
else adds base_sample and summarizes the duplicates. -/
def summarize_target_from_file (df : DataFrame) (target_name : String) : Except QError SummaryResult :=
  if "Target" ∉ df.cols then Except.error (QError.missingColumn "Target")
  else if "Sample" ∉ df.cols then Except.error (QError.missingColumn "Sample")
  else if "Cq" ∉ df.cols then Except.error (QError.missingColumn "Cq")
  else
    let df_target := filter_by_target df target_name
    if df_target.rows.isEmpty then Except.ok SummaryResult.empty
    else
      match summarize_duplicates (add_base_sample_column df_target) with
      | Except.ok l => Except.ok (SummaryResult.table l)
      | Except.error e => Except.error e

/-- Target value of a row, none when the cell is missing or not a
string. -/
def targetOf (cols : List String) (r : List Value) : Option String :=
  match getVal cols r "Target" with
  | some (Value.str s) => some s
  | _ => none

/-- Distinct Target values present in a table, in first-appearance
order. -/
def targetsOf (df : DataFrame) : List String :=
  (df.rows.filterMap (targetOf df.cols)).dedup

def exceptDecEq {ε α : Type} [DecidableEq ε] [DecidableEq α] : DecidableEq (Except ε α)
  | Except.error e, Except.error f =>
      if h : e = f then isTrue (by rw [h]) else isFalse (by intro hh; cases hh; exact h rfl)
  | Except.error _, Except.ok _ => isFalse (by intro hh; cases hh)
  | Except.ok _, Except.error _ => isFalse (by intro hh; cases hh)
  | Except.ok a, Except.ok b =>
      if h : a = b then isTrue (by rw [h]) else isFalse (by intro hh; cases hh; exact h rfl)

instance {ε α : Type} [DecidableEq ε] [DecidableEq α] : DecidableEq (Except ε α) := exceptDecEq

/-- Every row has a numeric Cq cell. -/
def CqNumeric (df : DataFrame) : Prop := ∀ r ∈ df.rows, (cqOf df.cols r).isSome

/-- Every row has a string base_sample cell. -/
def KeysString (df : DataFrame) : Prop := ∀ r ∈ df.rows, (keyOf df.cols r).isSome

/-- Every row has a string Target cell. -/
def TargetString (df : DataFrame) : Prop := ∀ r ∈ df.rows, (targetOf df.cols r).isSome

instance (df : DataFrame) : Decidable (CqNumeric df) := by
  unfold CqNumeric
  infer_instance

instance (df : DataFrame) : Decidable (KeysString df) := by
  unfold KeysString
  infer_instance

instance (df : DataFrame) : Decidable (TargetString df) := by
  unfold TargetString
  infer_instance

/-- Three-row table used in concrete checks below: two replicate rows
of KC_sample1 and one Control row, already carrying base_sample. -/
def dfEx : DataFrame :=
  DataFrame.mk ["base_sample", "Cq"]
    [[Value.str "KC_sample1", Value.num 20], [Value.str "KC_sample1", Value.num 22],
     [Value.str "Control", Value.num 18]]

/-- Same rows as dfEx in reversed order, for the order-independence
check. -/
def dfExRev : DataFrame :=
  DataFrame.mk ["base_sample", "Cq"]
    [[Value.str "Control", Value.num 18], [Value.str "KC_sample1", Value.num 22],
     [Value.str "KC_sample1", Value.num 20]]

/-- Table with a Target column used in concrete checks: two Actb rows
and one Stat3 row, as in the unit tests of the source. -/
def dfT : DataFrame :=
  DataFrame.mk ["Target", "Sample", "Cq"]
    [[Value.str "Actb", Value.str "s1_1", Value.num 20],
     [Value.str "Actb", Value.str "s1_2", Value.num 21],
     [Value.str "Stat3", Value.str "s1_1", Value.num 24]]


theorem takeWhile_append_all {p : Char → Bool} {l₁ : List Char} (l₂ : List Char) (h : ∀ c ∈ l₁, p c = true) : (l₁ ++ l₂).takeWhile p = l₁ ++ l₂.takeWhile p := by
  induction l₁ with
  | nil => simp
  | cons a l ih =>
    have ha : p a = true := h a (by simp)
    simp only [List.cons_append, List.takeWhile_cons, ha, if_true]
    rw [ih fun c hc => h c (by simp [hc])]

theorem string_data_eq_of_append (t ds : String) : (t ++ "_" ++ ds).data = t.data ++ '_' :: ds.data := by
  simp [String.data_append]

theorem clean_of_decomp (t ds : String) (hne : ds ≠ "") (hdig : ∀ c ∈ ds.data, c.isDigit) : clean_sample_name (t ++ "_" ++ ds) = t := by
  have hds : ds.data ≠ [] := by
    intro h
    apply hne
    cases ds with
    | mk l => cases h; rfl
  have hr : (t ++ "_" ++ ds).data.reverse = ds.data.reverse ++ '_' :: t.data.reverse := by
    rw [string_data_eq_of_append]
    simp
  have htw : ((t ++ "_" ++ ds).data.reverse.takeWhile Char.isDigit) = ds.data.reverse := by
    rw [hr, takeWhile_append_all _ (fun c hc => hdig c (List.mem_reverse.mp hc))]
    simp [List.takeWhile_cons]
  have hdrop : (t ++ "_" ++ ds).data.reverse.drop ds.data.reverse.length = '_' :: t.data.reverse := by
    rw [hr, List.drop_left]
  simp only [clean_sample_name]
  rw [htw, hdrop]
  have hcond : ds.data.reverse ≠ [] ∧ (('_' :: t.data.reverse).head? = some '_') := by
    constructor
    · simpa using hds
    · rfl
  rw [if_pos hcond]
  simp

theorem hasRepSuffix_of_cond (s : String) (h1 : s.data.reverse.takeWhile Char.isDigit ≠ []) (h2 : (s.data.reverse.drop (s.data.reverse.takeWhile Char.isDigit).length).head? = some '_') : HasRepSuffix s := by
  set r := s.data.reverse with hrdef
  set ds0 := r.takeWhile Char.isDigit with hds0
  have hsplit : ds0 ++ r.dropWhile Char.isDigit = r := by
    rw [hds0]
    exact List.takeWhile_append_dropWhile Char.isDigit r
  have hdropeq : r.drop ds0.length = r.dropWhile Char.isDigit := by
    conv_lhs => rw [← hsplit]
    rw [List.drop_left]
  rw [hdropeq] at h2
  obtain ⟨rest, hrest⟩ : ∃ rest, r.dropWhile Char.isDigit = '_' :: rest := by
    cases hdw : r.dropWhile Char.isDigit with
    | nil => rw [hdw] at h2; simp at h2
    | cons a l =>
      rw [hdw] at h2
      simp at h2
      exact ⟨l, by rw [h2]⟩
  refine ⟨String.mk rest.reverse, String.mk ds0.reverse, ?_, ?_, ?_⟩
  · have hdata : s.data = rest.reverse ++ '_' :: ds0.reverse := by
      have : r.reverse = s.data := by rw [hrdef, List.reverse_reverse]
      rw [← this, ← hsplit, hrest]
      simp
    apply String.ext
    rw [string_data_eq_of_append]
    exact hdata
  · intro h
    have : ds0.reverse = ([] : List Char) := congrArg String.data h
    simp at this
    exact h1 this
  · intro c hc
    have hc0 : c ∈ ds0 := List.mem_reverse.mp hc
    exact List.mem_takeWhile_imp hc0

theorem cond_of_hasRepSuffix (s : String) (h : HasRepSuffix s) : s.data.reverse.takeWhile Char.isDigit ≠ [] ∧ (s.data.reverse.drop (s.data.reverse.takeWhile Char.isDigit).length).head? = some '_' := by
  obtain ⟨t, ds, hs, hne, hdig⟩ := h
  have hds : ds.data ≠ [] := by
    intro h0
    apply hne
    cases ds with
    | mk l => cases h0; rfl
  have hr : s.data.reverse = ds.data.reverse ++ '_' :: t.data.reverse := by
    rw [hs, string_data_eq_of_append]
    simp
  have htw : s.data.reverse.takeWhile Char.isDigit = ds.data.reverse := by
    rw [hr, takeWhile_append_all _ (fun c hc => hdig c (List.mem_reverse.mp hc))]
    simp [List.takeWhile_cons]
  constructor
  · rw [htw]; simpa using hds
  · rw [htw, hr, List.drop_left]; rfl

theorem clean_of_no_suffix (s : String) (h : ¬ HasRepSuffix s) : clean_sample_name s = s := by
  unfold clean_sample_name
  rw [if_neg]
  intro hcond
  exact h (hasRepSuffix_of_cond s hcond.1 hcond.2)

theorem hasRepSuffixB_iff (s : String) : hasRepSuffixB s = true ↔ HasRepSuffix s := by
  constructor
  · intro h
    unfold hasRepSuffixB at h
    simp only [Bool.and_eq_true, beq_iff_eq, Bool.not_eq_true] at h
    exact hasRepSuffix_of_cond s (by simpa [List.isEmpty_iff] using h.1) h.2
  · intro h
    obtain ⟨h1, h2⟩ := cond_of_hasRepSuffix s h
    unfold hasRepSuffixB
    simp only [Bool.and_eq_true, beq_iff_eq, Bool.not_eq_true]
    exact ⟨by simpa [List.isEmpty_iff] using h1, h2⟩

instance (s : String) : Decidable (HasRepSuffix s) :=
  decidable_of_iff (hasRepSuffixB s = true) (hasRepSuffixB_iff s)

theorem digitChar_isDigit (m : ℕ) (hm : m < 10) : (Nat.digitChar m).isDigit = true := by
  interval_cases m <;> decide

theorem toDigitsCore_all_digits : ∀ (f n : ℕ) (ds : List Char), (∀ c ∈ ds, c.isDigit = true) → ∀ c ∈ Nat.toDigitsCore 10 f n ds, c.isDigit = true := by
  intro f
  induction f with
  | zero =>
    intro n ds h c hc
    rw [Nat.toDigitsCore] at hc
    exact h c hc
  | succ f ih =>
    intro n ds h c hc
    have hds : ∀ c ∈ (n % 10).digitChar :: ds, c.isDigit = true := by
      intro c hc
      rcases List.mem_cons.mp hc with h0 | h0
      · rw [h0]; exact digitChar_isDigit _ (Nat.mod_lt _ (by norm_num))
      · exact h c h0
    simp only [Nat.toDigitsCore] at hc
    by_cases h10 : n / 10 = 0
    · rw [if_pos h10] at hc
      exact hds c hc
    · rw [if_neg h10] at hc
      exact ih (n / 10) ((n % 10).digitChar :: ds) hds c hc

theorem toDigitsCore_ne_nil : ∀ (f n : ℕ) (ds : List Char), ds ≠ [] → Nat.toDigitsCore 10 f n ds ≠ [] := by
  intro f
  induction f with
  | zero =>
    intro n ds h
    rw [Nat.toDigitsCore]
    exact h
  | succ f ih =>
    intro n ds h
    simp only [Nat.toDigitsCore]
    by_cases h10 : n / 10 = 0
    · rw [if_pos h10]
      exact List.cons_ne_nil _ _
    · rw [if_neg h10]
      exact ih (n / 10) _ (List.cons_ne_nil _ _)

theorem toDigits_ne_nil (n : ℕ) : Nat.toDigits 10 n ≠ [] := by
  rw [Nat.toDigits]
  simp only [Nat.toDigitsCore]
  by_cases h10 : n / 10 = 0
  · rw [if_pos h10]
    exact List.cons_ne_nil _ _
  · rw [if_neg h10]
    exact toDigitsCore_ne_nil n (n / 10) _ (List.cons_ne_nil _ _)

theorem repr_data_digits (n : ℕ) : ∀ c ∈ (Nat.repr n).data, c.isDigit = true := by
  intro c hc
  have hdata : (Nat.repr n).data = Nat.toDigits 10 n := rfl
  rw [hdata] at hc
  exact toDigitsCore_all_digits (n + 1) n [] (by simp) c hc

theorem repr_ne_empty (n : ℕ) : Nat.repr n ≠ "" := by
  intro h
  have hdata : (Nat.repr n).data = Nat.toDigits 10 n := rfl
  have : Nat.toDigits 10 n = [] := by
    rw [← hdata, h]
  exact toDigits_ne_nil n this

example : clean_sample_name "KC_sample1_1" = "KC_sample1" := by decide
example : clean_sample_name "X_12" = "X" := by decide
example : clean_sample_name "A_1_2" = "A_1" := by decide
example : clean_sample_name "Control" = "Control" := by decide
example : decide (HasRepSuffix "KC_sample1_1") = true := by decide
example : decide (HasRepSuffix "Control") = false := by decide


example : groupKeys dfEx = ["Control", "KC_sample1"] := by decide
example : groupVals dfEx "KC_sample1" = [20, 22] := by decide
example : groupVals dfEx "Control" = [18] := by decide

theorem summarize_dfEx_eval :
    summarize_duplicates dfEx
      = Except.ok
          [SummaryRow.mk "Control" 18 none 1, SummaryRow.mk "KC_sample1" 21 (some 2) 2] := by
  have hk : groupKeys dfEx = ["Control", "KC_sample1"] := by decide
  have h1 : groupVals dfEx "Control" = [18] := by decide
  have h2 : groupVals dfEx "KC_sample1" = [20, 22] := by decide
  have hcols : ("base_sample" ∉ dfEx.cols) = False := by decide
  have hcols2 : ("Cq" ∉ dfEx.cols) = False := by decide
  rw [summarize_duplicates, if_neg (by decide), if_neg (by decide), hk]
  simp only [List.map_cons, List.map_nil, h1, h2]
  norm_num [mkSummaryRow, sumSq]

instance : IsTotal String strLe :=
  ⟨fun a b => le_total a.data b.data⟩

instance : IsTrans String strLe :=
  ⟨fun _ _ _ hab hbc => le_trans hab hbc⟩

instance : IsAntisymm String strLe :=
  ⟨fun _ _ hab hba => String.ext (le_antisymm hab hba)⟩

theorem summarize_duplicates_eq_ok (df : DataFrame) (hb : "base_sample" ∈ df.cols) (hc : "Cq" ∈ df.cols) :
    summarize_duplicates df
      = Except.ok ((groupKeys df).map fun g => mkSummaryRow g (groupVals df g)) := by
  unfold summarize_duplicates
  rw [if_neg (not_not_intro hb), if_neg (not_not_intro hc)]

theorem groupKeys_sorted (df : DataFrame) : List.Sorted strLe (groupKeys df) :=
  List.sorted_insertionSort strLe _

theorem groupKeys_nodup (df : DataFrame) : (groupKeys df).Nodup :=
  ((List.perm_insertionSort strLe _).nodup_iff).mpr (List.nodup_dedup _)

theorem groupKeys_sorted_lt (df : DataFrame) : List.Sorted strLt (groupKeys df) := by
  have h1 : List.Pairwise strLe (groupKeys df) := groupKeys_sorted df
  have h2 : List.Pairwise (fun a b => a ≠ b) (groupKeys df) := groupKeys_nodup df
  exact (h1.and h2).imp fun {a b} h =>
    lt_of_le_of_ne h.1 fun hdd => h.2 (String.ext hdd)

theorem mem_groupKeys (df : DataFrame) (g : String) :
    g ∈ groupKeys df ↔ ∃ r ∈ df.rows, keyOf df.cols r = some g := by
  unfold groupKeys
  rw [(List.perm_insertionSort strLe _).mem_iff, List.mem_dedup, List.mem_filterMap]

theorem result_map_base (df : DataFrame) :
    (((groupKeys df).map fun g => mkSummaryRow g (groupVals df g)).map SummaryRow.base_sample)
      = groupKeys df := by
  rw [List.map_map]
  exact List.map_id _

theorem groupVals_length_eq_filter (cols : List String) (l : List (List Value)) (h : ∀ r ∈ l, (cqOf cols r).isSome) (g : String) :
    (l.filterMap fun r => if keyOf cols r = some g then cqOf cols r else none).length
      = (l.filter fun r => decide (keyOf cols r = some g)).length := by
  induction l with
  | nil => rfl
  | cons a t ih =>
    have ha : (cqOf cols a).isSome := h a (List.mem_cons_self a t)
    have ht : ∀ r ∈ t, (cqOf cols r).isSome := fun r hr => h r (List.mem_cons_of_mem a hr)
    rw [List.filterMap_cons, List.filter_cons]
    by_cases hk : keyOf cols a = some g
    · obtain ⟨q, hq⟩ := Option.isSome_iff_exists.mp ha
      rw [if_pos hk, hq]
      simp [hk, ih ht]
    · rw [if_neg hk]
      simp [hk, ih ht]

/-- C5: summarize_duplicates fails with an error naming a missing
column exactly when base_sample or Cq is absent, and returns normally
when both are present. -/
theorem summarize_duplicates_missing_column (df : DataFrame) :
    ((∃ c, (c = "base_sample" ∨ c = "Cq") ∧ c ∉ df.cols
        ∧ summarize_duplicates df = Except.error (QError.missingColumn c))
      ↔ ("base_sample" ∉ df.cols ∨ "Cq" ∉ df.cols))
    ∧ ("base_sample" ∈ df.cols → "Cq" ∈ df.cols →
        ∃ l, summarize_duplicates df = Except.ok l) := by
  constructor
  · constructor
    · rintro ⟨c, hc, hnc, _⟩
      rcases hc with rfl | rfl
      · exact Or.inl hnc
      · exact Or.inr hnc
    · intro h
      by_cases hb : "base_sample" ∈ df.cols
      · have hcq : "Cq" ∉ df.cols := by tauto
        refine ⟨"Cq", Or.inr rfl, hcq, ?_⟩
        unfold summarize_duplicates
        rw [if_neg (not_not_intro hb), if_pos hcq]
      · refine ⟨"base_sample", Or.inl rfl, hb, ?_⟩
        unfold summarize_duplicates
        rw [if_pos hb]
  · intro hb hc
    exact ⟨_, summarize_duplicates_eq_ok df hb hc⟩

/-- Witness for C5: on the concrete table dfEx, which has both columns,
the aggregation returns normally. -/
theorem summarize_duplicates_missing_column_witness :
    ∃ l, summarize_duplicates dfEx = Except.ok l :=
  (summarize_duplicates_missing_column dfEx).2 (by decide) (by decide)

theorem sum_sq_dev (l : List ℚ) (m : ℚ) :
    (l.map fun x => (x - m) ^ 2).sum = sumSq l - 2 * m * l.sum + l.length * m ^ 2 := by
  induction l with
  | nil => simp [sumSq]
  | cons a t ih =>
    have hs : sumSq (a :: t) = a ^ 2 + sumSq t := by simp [sumSq]
    rw [List.map_cons, List.sum_cons, ih, hs, List.sum_cons, List.length_cons]
    push_cast
    ring

theorem centered_variance (l : List ℚ) (hl : l ≠ []) :
    (l.map fun x => (x - l.sum / l.length) ^ 2).sum = sumSq l - l.sum ^ 2 / l.length := by
  have hn : (l.length : ℚ) ≠ 0 := by
    have : l.length ≠ 0 := fun h0 => hl (List.length_eq_zero.mp h0)
    exact_mod_cast Nat.cast_ne_zero.mpr this
  rw [sum_sq_dev l (l.sum / l.length)]
  field_simp
  ring

/-- C7: with base_sample and Cq present and all Cq cells numeric, the
aggregation returns one summary row per distinct base_sample value,
whose n_reps counts the rows of the group and whose mean_cq is the
arithmetic mean of the Cq values of the group. -/
theorem summarize_duplicates_mean_count (df : DataFrame) (hb : "base_sample" ∈ df.cols) (hc : "Cq" ∈ df.cols) (hwf : CqNumeric df) :
    ∃ l, summarize_duplicates df = Except.ok l
      ∧ (l.map SummaryRow.base_sample).Nodup
      ∧ (∀ g : String, g ∈ l.map SummaryRow.base_sample ↔ ∃ r ∈ df.rows, keyOf df.cols r = some g)
      ∧ ∀ row ∈ l,
          row.n_reps
              = (df.rows.filter fun r => decide (keyOf df.cols r = some row.base_sample)).length
            ∧ row.mean_cq
              = (groupVals df row.base_sample).sum / ((groupVals df row.base_sample).length : ℚ) := by
  refine ⟨_, summarize_duplicates_eq_ok df hb hc, ?_, ?_, ?_⟩
  · rw [result_map_base]
    exact groupKeys_nodup df
  · intro g
    rw [result_map_base]
    exact mem_groupKeys df g
  · intro row hrow
    obtain ⟨g, hg, rfl⟩ := List.mem_map.mp hrow
    have hbase : (mkSummaryRow g (groupVals df g)).base_sample = g := rfl
    have hn : (mkSummaryRow g (groupVals df g)).n_reps = (groupVals df g).length := rfl
    rw [hbase, hn]
    constructor
    · exact groupVals_length_eq_filter df.cols df.rows hwf g
    · rfl

/-- Witness for C7 at the concrete table dfEx. -/
theorem summarize_duplicates_mean_count_witness :
    ∃ l, summarize_duplicates dfEx = Except.ok l
      ∧ (l.map SummaryRow.base_sample).Nodup
      ∧ (∀ g : String, g ∈ l.map SummaryRow.base_sample ↔ ∃ r ∈ dfEx.rows, keyOf dfEx.cols r = some g)
      ∧ ∀ row ∈ l,
          row.n_reps
              = (dfEx.rows.filter fun r => decide (keyOf dfEx.cols r = some row.base_sample)).length
            ∧ row.mean_cq
              = (groupVals dfEx row.base_sample).sum / ((groupVals dfEx row.base_sample).length : ℚ) :=
  summarize_duplicates_mean_count dfEx (by decide) (by decide) (by decide)

/-- C6: the reported standard deviation of every group is the square
root of the sample variance with divisor n minus one; a singleton
group reports none (the NaN of the source) while the call still
returns normally. -/
theorem summarize_duplicates_std_semantics (df : DataFrame) (hb : "base_sample" ∈ df.cols) (hc : "Cq" ∈ df.cols) :
    ∃ l, summarize_duplicates df = Except.ok l
      ∧ ∀ row ∈ l,
          (row.n_reps = 1 → row.std_cq = none)
          ∧ (2 ≤ row.n_reps →
              row.std_cq
                = some (Real.sqrt
                    ((((groupVals df row.base_sample).map fun x =>
                        (x - (groupVals df row.base_sample).sum
                          / ((groupVals df row.base_sample).length : ℚ)) ^ 2).sum
                      / (((groupVals df row.base_sample).length : ℚ) - 1) : ℚ)))) := by
  refine ⟨_, summarize_duplicates_eq_ok df hb hc, ?_⟩
  intro row hrow
  obtain ⟨g, hg, rfl⟩ := List.mem_map.mp hrow
  have hbase : (mkSummaryRow g (groupVals df g)).base_sample = g := rfl
  have hn : (mkSummaryRow g (groupVals df g)).n_reps = (groupVals df g).length := rfl
  rw [hbase, hn]
  constructor
  · intro h1
    have hvar : (mkSummaryRow g (groupVals df g)).var_cq = none := by
      simp [mkSummaryRow, h1]
    simp [SummaryRow.std_cq, hvar]
  · intro h2
    have hnle : ¬ (groupVals df g).length ≤ 1 := by omega
    have hnil : groupVals df g ≠ [] := by
      intro h0
      rw [h0] at h2
      simp at h2
    have hvar : (mkSummaryRow g (groupVals df g)).var_cq
        = some ((sumSq (groupVals df g) - (groupVals df g).sum ^ 2 / (groupVals df g).length)
            / (((groupVals df g).length : ℚ) - 1)) := by
      simp [mkSummaryRow, hnle]
    rw [SummaryRow.std_cq, hvar, centered_variance (groupVals df g) hnil]
    rfl

/-- Witness for C6 at a concrete singleton table: one Control row with
Cq 18. -/
theorem summarize_duplicates_std_semantics_witness :
    ∃ l, summarize_duplicates (DataFrame.mk ["base_sample", "Cq"] [[Value.str "Control", Value.num 18]]) = Except.ok l
      ∧ ∀ row ∈ l,
          (row.n_reps = 1 → row.std_cq = none)
          ∧ (2 ≤ row.n_reps →
              row.std_cq
                = some (Real.sqrt
                    ((((groupVals (DataFrame.mk ["base_sample", "Cq"] [[Value.str "Control", Value.num 18]]) row.base_sample).map fun x =>
                        (x - (groupVals (DataFrame.mk ["base_sample", "Cq"] [[Value.str "Control", Value.num 18]]) row.base_sample).sum
                          / ((groupVals (DataFrame.mk ["base_sample", "Cq"] [[Value.str "Control", Value.num 18]]) row.base_sample).length : ℚ)) ^ 2).sum
                      / (((groupVals (DataFrame.mk ["base_sample", "Cq"] [[Value.str "Control", Value.num 18]]) row.base_sample).length : ℚ) - 1) : ℚ)))) :=
  summarize_duplicates_std_semantics (DataFrame.mk ["base_sample", "Cq"] [[Value.str "Control", Value.num 18]]) (by decide) (by decide)

theorem flatMap_congr {α β : Type} {f g : α → List β} : ∀ {l : List α}, (∀ a ∈ l, f a = g a) → l.flatMap f = l.flatMap g := by
  intro l
  induction l with
  | nil => intro _; rfl
  | cons x t ih =>
    intro h
    rw [List.flatMap_cons, List.flatMap_cons, h x (List.mem_cons_self x t),
      ih fun a ha => h a (List.mem_cons_of_mem x ha)]

theorem flatMap_filter_perm {α κ : Type} [DecidableEq κ] (key : α → Option κ) :
    ∀ (ts : List κ) (l : List α), ts.Nodup → (∀ r ∈ l, ∃ t ∈ ts, key r = some t) →
      (ts.flatMap fun t => l.filter fun r => decide (key r = some t)).Perm l := by
  intro ts
  induction ts with
  | nil =>
    intro l _ hcov
    have hl : l = [] := by
      cases l with
      | nil => rfl
      | cons a t =>
        obtain ⟨t2, ht2, _⟩ := hcov a (List.mem_cons_self a t)
        cases ht2
    rw [hl, List.flatMap_nil]
  | cons t ts ih =>
    intro l hnd hcov
    rw [List.flatMap_cons]
    have htail : ∀ t2 ∈ ts,
        (l.filter fun r => decide (key r = some t2))
          = (l.filter fun r => !decide (key r = some t)).filter
              fun r => decide (key r = some t2) := by
      intro t2 ht2
      rw [List.filter_filter]
      apply List.filter_congr
      intro r _
      by_cases hk : key r = some t2
      · have hne : t2 ≠ t := fun heq => (List.nodup_cons.mp hnd).1 (heq ▸ ht2)
        simp [hk, hne]
      · simp [hk]
    have hcov2 : ∀ r ∈ l.filter fun r => !decide (key r = some t), ∃ t2 ∈ ts, key r = some t2 := by
      intro r hr
      have hrl : r ∈ l := List.mem_of_mem_filter hr
      have hrt : ¬ key r = some t := by
        have h2 := (List.mem_filter.mp hr).2
        simpa using h2
      obtain ⟨t2, ht2, hk⟩ := hcov r hrl
      rcases List.mem_cons.mp ht2 with rfl | hmem
      · exact absurd hk hrt
      · exact ⟨t2, hmem, hk⟩
    have hperm2 := ih (l.filter fun r => !decide (key r = some t)) (List.nodup_cons.mp hnd).2 hcov2
    have hmapeq : (ts.flatMap fun t2 => l.filter fun r => decide (key r = some t2))
        = ts.flatMap fun t2 =>
            (l.filter fun r => !decide (key r = some t)).filter
              fun r => decide (key r = some t2) :=
      flatMap_congr htail
    rw [hmapeq]
    exact (hperm2.append_left _).trans (List.filter_append_perm _ l)

/-- C3: filter_by_target keeps exactly the rows whose Target cell is
the given string, preserves the columns, returns no rows when nothing
matches, and the groups of the distinct Target values present
partition the table. -/
theorem filter_by_target_correct (df : DataFrame) (g : String) :
    (∀ r, r ∈ (filter_by_target df g).rows
        ↔ r ∈ df.rows ∧ getVal df.cols r "Target" = some (Value.str g))
    ∧ (filter_by_target df g).cols = df.cols
    ∧ ((∀ r ∈ df.rows, getVal df.cols r "Target" ≠ some (Value.str g)) →
        (filter_by_target df g).rows = [])
    ∧ (TargetString df →
        ((targetsOf df).flatMap fun t => (filter_by_target df t).rows).Perm df.rows) := by
  refine ⟨?_, rfl, ?_, ?_⟩
  · intro r
    unfold filter_by_target
    simp [List.mem_filter]
  · intro h
    unfold filter_by_target
    simp only []
    rw [List.filter_eq_nil_iff]
    intro r hr
    simpa using h r hr
  · intro ht
    have hpred : ∀ t : String,
        (df.rows.filter fun r => decide (getVal df.cols r "Target" = some (Value.str t)))
          = df.rows.filter fun r => decide (targetOf df.cols r = some t) := by
      intro t
      apply List.filter_congr
      intro r _
      rw [decide_eq_decide]
      constructor
      · intro h
        unfold targetOf
        rw [h]
      · intro h
        unfold targetOf at h
        cases hv : getVal df.cols r "Target" with
        | none => rw [hv] at h; simp at h
        | some v =>
          cases v with
          | str s =>
            rw [hv] at h
            simp only [Option.some.injEq] at h
            rw [h]
          | num q => rw [hv] at h; simp at h
    have hcov : ∀ r ∈ df.rows, ∃ t ∈ targetsOf df, targetOf df.cols r = some t := by
      intro r hr
      obtain ⟨gr, hgr⟩ := Option.isSome_iff_exists.mp (ht r hr)
      exact ⟨gr, List.mem_dedup.mpr (List.mem_filterMap.mpr ⟨r, hr, hgr⟩), hgr⟩
    have hmain := flatMap_filter_perm (targetOf df.cols) (targetsOf df) df.rows
      (List.nodup_dedup _) hcov
    have hshape : ((targetsOf df).flatMap fun t => (filter_by_target df t).rows)
        = (targetsOf df).flatMap fun t =>
            df.rows.filter fun r => decide (targetOf df.cols r = some t) := by
      apply flatMap_congr
      intro t _
      exact hpred t
    rw [hshape]
    exact hmain
/-- Witness for C3 at the concrete table dfT: filtering by an absent
target gives no rows, and the groups of the present targets partition
the table. -/
theorem filter_by_target_correct_witness :
    (filter_by_target dfT "Gapdh").rows = []
    ∧ ((targetsOf dfT).flatMap fun t => (filter_by_target dfT t).rows).Perm dfT.rows :=
  ⟨(filter_by_target_correct dfT "Gapdh").2.2.1 (by decide),
   (filter_by_target_correct dfT "Gapdh").2.2.2 (by decide)⟩

/-- C8: a loaded table missing Target, Sample or Cq makes the pipeline
fail with an error naming a missing column, for every target and
before any row is even inspected. -/
theorem summarize_target_missing_column (df : DataFrame) (g : String) (h : "Target" ∉ df.cols ∨ "Sample" ∉ df.cols ∨ "Cq" ∉ df.cols) :
    ∃ c, c ∉ df.cols ∧ (c = "Target" ∨ c = "Sample" ∨ c = "Cq")
      ∧ summarize_target_from_file df g = Except.error (QError.missingColumn c) := by
  by_cases ht : "Target" ∈ df.cols
  · by_cases hs : "Sample" ∈ df.cols
    · have hc : "Cq" ∉ df.cols := by tauto
      refine ⟨"Cq", hc, Or.inr (Or.inr rfl), ?_⟩
      unfold summarize_target_from_file
      rw [if_neg (not_not_intro ht), if_neg (not_not_intro hs), if_pos hc]
    · refine ⟨"Sample", hs, Or.inr (Or.inl rfl), ?_⟩
      unfold summarize_target_from_file
      rw [if_neg (not_not_intro ht), if_pos hs]
  · refine ⟨"Target", ht, Or.inl rfl, ?_⟩
    unfold summarize_target_from_file
    rw [if_pos ht]

/-- Witness for C8 at a concrete table lacking the Cq column. -/
theorem summarize_target_missing_column_witness :
    ∃ c, c ∉ (DataFrame.mk ["Target", "Sample"] []).cols
      ∧ (c = "Target" ∨ c = "Sample" ∨ c = "Cq")
      ∧ summarize_target_from_file (DataFrame.mk ["Target", "Sample"] []) "Actb"
          = Except.error (QError.missingColumn c) :=
  summarize_target_missing_column (DataFrame.mk ["Target", "Sample"] []) "Actb" (by decide)

/-- C9: when the three required columns are present and no row carries
the requested target, the pipeline returns the empty result with zero
rows and zero columns, not an error. -/
theorem summarize_target_no_match (df : DataFrame) (g : String) (ht : "Target" ∈ df.cols) (hs : "Sample" ∈ df.cols) (hc : "Cq" ∈ df.cols) (hnone : ∀ r ∈ df.rows, getVal df.cols r "Target" ≠ some (Value.str g)) :
    summarize_target_from_file df g = Except.ok SummaryResult.empty
    ∧ SummaryResult.numRows SummaryResult.empty = 0
    ∧ SummaryResult.numCols SummaryResult.empty = 0 := by
  refine ⟨?_, rfl, rfl⟩
  unfold summarize_target_from_file
  rw [if_neg (not_not_intro ht), if_neg (not_not_intro hs), if_neg (not_not_intro hc)]
  have hrows : (filter_by_target df g).rows = [] := by
    unfold filter_by_target
    simp only []
    rw [List.filter_eq_nil_iff]
    intro r hr
    simpa using hnone r hr
  simp [hrows]

/-- Witness for C9 at the concrete table dfT and the absent target
Gapdh. -/
theorem summarize_target_no_match_witness :
    summarize_target_from_file dfT "Gapdh" = Except.ok SummaryResult.empty
    ∧ SummaryResult.numRows SummaryResult.empty = 0
    ∧ SummaryResult.numCols SummaryResult.empty = 0 :=
  summarize_target_no_match dfT "Gapdh" (by decide) (by decide) (by decide) (by decide)

/-- C10: the summary rows come out sorted in ascending lexicographic
order of base_sample, and the summary does not depend on the order of
the input rows. -/
theorem summarize_duplicates_sorted_output (df df2 : DataFrame) (l : List SummaryRow) (hcols : df2.cols = df.cols) (hrows : df2.rows.Perm df.rows) (h : summarize_duplicates df = Except.ok l) :
    List.Sorted strLt (l.map SummaryRow.base_sample)
    ∧ summarize_duplicates df2 = Except.ok l := by
  have hb : "base_sample" ∈ df.cols := by
    by_contra hb
    unfold summarize_duplicates at h
    rw [if_pos hb] at h
    cases h
  have hc : "Cq" ∈ df.cols := by
    by_contra hc
    unfold summarize_duplicates at h
    rw [if_neg (not_not_intro hb), if_pos hc] at h
    cases h
  have hl : l = (groupKeys df).map fun g => mkSummaryRow g (groupVals df g) := by
    rw [summarize_duplicates_eq_ok df hb hc] at h
    exact (Except.ok.inj h).symm
  constructor
  · rw [hl, result_map_base]
    exact groupKeys_sorted_lt df
  · have hkeys : groupKeys df2 = groupKeys df := by
      unfold groupKeys
      have hperm : (df2.rows.filterMap (keyOf df2.cols)).Perm (df.rows.filterMap (keyOf df.cols)) := by
        rw [hcols]
        exact hrows.filterMap _
      have hsp : ((df2.rows.filterMap (keyOf df2.cols)).dedup.insertionSort strLe).Perm
          ((df.rows.filterMap (keyOf df.cols)).dedup.insertionSort strLe) :=
        (List.perm_insertionSort _ _).trans (hperm.dedup.trans (List.perm_insertionSort _ _).symm)
      exact List.eq_of_perm_of_sorted hsp (List.sorted_insertionSort _ _) (List.sorted_insertionSort _ _)
    have hvals : ∀ g, mkSummaryRow g (groupVals df2 g) = mkSummaryRow g (groupVals df g) := by
      intro g
      have hp : (groupVals df2 g).Perm (groupVals df g) := by
        unfold groupVals
        rw [hcols]
        exact hrows.filterMap _
      unfold mkSummaryRow sumSq
      rw [hp.length_eq, hp.sum_eq, (hp.map fun x => x ^ 2).sum_eq]
    rw [summarize_duplicates_eq_ok df2 (by rw [hcols]; exact hb) (by rw [hcols]; exact hc), hkeys, hl]
    congr 1
    exact List.map_congr_left fun g _ => hvals g

/-- Witness for C10: the concrete table dfEx and its row-reversed
variant dfExRev give the same summary, with keys in ascending order. -/
theorem summarize_duplicates_sorted_output_witness :
    List.Sorted strLt
      (([SummaryRow.mk "Control" 18 none 1,
         SummaryRow.mk "KC_sample1" 21 (some 2) 2]).map SummaryRow.base_sample)
    ∧ summarize_duplicates dfExRev
        = Except.ok
            [SummaryRow.mk "Control" 18 none 1, SummaryRow.mk "KC_sample1" 21 (some 2) 2] :=
  summarize_duplicates_sorted_output dfEx dfExRev
    [SummaryRow.mk "Control" 18 none 1, SummaryRow.mk "KC_sample1" 21 (some 2) 2]
    (by decide) (by decide) summarize_dfEx_eval

/-- C1: clean_sample_name removes exactly one trailing match of
underscore-followed-by-digits anchored at the end of the string,
returns the input unchanged when no such suffix exists, and strips
only the final such segment when several are present; the four spec
examples evaluate as stated. -/
theorem clean_sample_name_correct :
    (∀ t ds : String, ds ≠ "" → (∀ c ∈ ds.data, c.isDigit) →
      clean_sample_name (t ++ "_" ++ ds) = t)
    ∧ (∀ s : String, ¬ HasRepSuffix s → clean_sample_name s = s)
    ∧ clean_sample_name "KC_sample1_1" = "KC_sample1"
    ∧ clean_sample_name "X_12" = "X"
    ∧ clean_sample_name "A_1_2" = "A_1"
    ∧ clean_sample_name "Control" = "Control" :=
  ⟨clean_of_decomp, clean_of_no_suffix, by decide, by decide, by decide, by decide⟩

/-- Witness for C1 at concrete inputs: the general clauses applied at
the name A_1_2 (only the final numeric segment goes) and at Control
(no suffix, unchanged). -/
theorem clean_sample_name_correct_witness :
    clean_sample_name ("A_1" ++ "_" ++ "2") = "A_1"
    ∧ clean_sample_name "Control" = "Control" :=
  ⟨clean_sample_name_correct.1 "A_1" "2" (by decide) (by decide),
   clean_sample_name_correct.2.1 "Control" (by decide)⟩

/-- C2: the two normalization laws of clean_sample_name. For a name s
without a trailing underscore-digits suffix, the name is unchanged,
and appending an underscore and the decimal representation of any
positive integer k gives back s. -/
theorem clean_sample_name_normalization_laws (s : String) (k : ℕ) (hs : ¬ HasRepSuffix s) (_hk : 0 < k) :
    clean_sample_name s = s ∧ clean_sample_name (s ++ "_" ++ toString k) = s :=
  ⟨clean_of_no_suffix s hs,
   clean_of_decomp s (toString k) (repr_ne_empty k) (repr_data_digits k)⟩

/-- Witness for C2 at the concrete name Control and k = 7. -/
theorem clean_sample_name_normalization_laws_witness :
    clean_sample_name "Control" = "Control"
    ∧ clean_sample_name ("Control" ++ "_" ++ toString 7) = "Control" :=
  clean_sample_name_normalization_laws "Control" 7 (by decide) (by decide)

end QPCR
